import Mathlib

/-!
Shallow embedding of the bit-packed value types of the regalloc2 register
allocator (src/lib.rs) together with a model of the legacy linear-scan entry
point (src/linear_scan.rs), and theorems settling the specification claims
about them.

Machine integers (u8, u32, usize) are modelled as Nat with explicit `% 2^w`
at the points where the Rust code performs a narrowing cast or where wrapping
arithmetic can occur.  A Rust function that can panic (assert, array-bounds
trick, unreachable, unwrap, unimplemented) is modelled as an Option-returning
function whose `none` result stands for the panic.  Functions that carry a
`debug_assert` are modelled as the total function the release build computes,
with the asserted condition exposed separately as a Bool so that theorems can
speak about whether the assertion fires.
-/

/-- Register classes (src/lib.rs `RegClass`): Int = 0, Float = 1. -/
inductive RegClass where
  | Int : RegClass
  | Float : RegClass
deriving DecidableEq, Repr

/-- The discriminant value of a register class (`class as u8`). -/
def RegClass.toNat : RegClass → Nat
  | .Int => 0
  | .Float => 1

/-! ### PReg (src/lib.rs lines 66-133) -/

/-- A physical register: `hw_enc` (a u8 in the source) and a class. -/
structure PReg where
  hw_enc : Nat
  cls : RegClass
deriving DecidableEq, Repr

/-- `PReg::MAX_BITS`. -/
def PReg.MAX_BITS : Nat := 6

/-- `PReg::MAX` = 63. -/
def PReg.MAX : Nat := (1 <<< PReg.MAX_BITS) - 1

/-- `PReg::MAX_INDEX` = 128, "including RegClass bit". -/
def PReg.MAX_INDEX : Nat := 1 <<< (PReg.MAX_BITS + 1)

/-- Field construction of `PReg::new` after its bounds check: stores
`hw_enc as u8`. -/
def PReg.new (hw : Nat) (c : RegClass) : PReg :=
  { hw_enc := hw % 256, cls := c }

/-- `PReg::new` with its bounds check: the indexing trick panics exactly
when `hw_enc` is not a valid index into an array of length `MAX + 1` = 64. -/
def PReg.new? (hw : Nat) (c : RegClass) : Option PReg :=
  if hw < PReg.MAX + 1 then some (PReg.new hw c) else Option.none

/-- `PReg::index`: `((self.class as u8 as usize) << 5) | (self.hw_enc as usize)`. -/
def PReg.index (p : PReg) : Nat :=
  (p.cls.toNat <<< 5) ||| p.hw_enc

/-- `PReg::from_index`: class from bit 5, then the low 6 bits through
`PReg::new` (whose bounds check always passes on `index & MAX`). -/
def PReg.from_index (index : Nat) : PReg :=
  PReg.new (index &&& PReg.MAX)
    (if (index >>> 5) &&& 1 = 0 then RegClass.Int else RegClass.Float)

/-- `PReg::invalid`. -/
def PReg.invalid : PReg := PReg.new PReg.MAX RegClass.Int

/-! ### VReg (src/lib.rs lines 168-207) -/

/-- A virtual register, packed into a u32: vreg id shifted left one, class
bit in the lowest position. -/
structure VReg where
  bits : Nat
deriving DecidableEq, Repr

/-- `VReg::MAX_BITS`. -/
def VReg.MAX_BITS : Nat := 21

/-- `VReg::MAX` = 2^21 - 1. -/
def VReg.MAX : Nat := (1 <<< VReg.MAX_BITS) - 1

/-- Field construction of `VReg::new` after its bounds check:
`bits = ((virt_reg as u32) << 1) | (class as u8 as u32)`, on u32. -/
def VReg.new (v : Nat) (c : RegClass) : VReg :=
  { bits := (((v % 4294967296) <<< 1) % 4294967296) ||| c.toNat }

/-- `VReg::new` with its bounds check: panics exactly when the id is not a
valid index into an array of length `MAX + 1` = 2^21. -/
def VReg.new? (v : Nat) (c : RegClass) : Option VReg :=
  if v < VReg.MAX + 1 then some (VReg.new v c) else Option.none

/-- `VReg::vreg`: `(self.bits >> 1) as usize`. -/
def VReg.vreg (v : VReg) : Nat := v.bits >>> 1

/-- `VReg::class`: low bit of the packed word (the match on 0/1 is total on
a 1-bit value). -/
def VReg.cls (v : VReg) : RegClass :=
  if v.bits &&& 1 = 0 then RegClass.Int else RegClass.Float

/-! ### SpillSlot (src/lib.rs lines 233-286) -/

/-- A spill slot, packed into a u32: 24-bit slot index plus class byte. -/
structure SpillSlot where
  bits : Nat
deriving DecidableEq, Repr

/-- `SpillSlot::new`: asserts `slot < (1 << 24)`, then packs
`(slot as u32) | (class as u8 as u32) << 24`. -/
def SpillSlot.new? (slot : Nat) (c : RegClass) : Option SpillSlot :=
  if slot < 1 <<< 24 then some { bits := (slot % 4294967296) ||| (c.toNat <<< 24) }
  else Option.none

/-- `SpillSlot::index`: `(self.bits & 0x00ffffff) as usize`. -/
def SpillSlot.index (s : SpillSlot) : Nat := s.bits &&& 0x00ffffff

/-- `SpillSlot::class`: matches `(self.bits >> 24) as u8` against 0 and 1;
the `unreachable` arm is modelled as `none`. -/
def SpillSlot.class? (s : SpillSlot) : Option RegClass :=
  match (s.bits >>> 24) % 256 with
  | 0 => some RegClass.Int
  | 1 => some RegClass.Float
  | _ => Option.none

/-- `SpillSlot::invalid`: the all-ones u32. -/
def SpillSlot.invalid : SpillSlot := { bits := 0xffffffff }

/-- `SpillSlot::is_invalid`: equality with the sentinel (derived PartialEq
compares the packed bits, which is structural equality here). -/
def SpillSlot.is_invalid (s : SpillSlot) : Bool := decide (s = SpillSlot.invalid)

/-- `SpillSlot::is_valid`: inequality with the sentinel. -/
def SpillSlot.is_valid (s : SpillSlot) : Bool := decide (s ≠ SpillSlot.invalid)

/-! ### Operand (src/lib.rs lines 305-641) -/

/-- `OperandConstraint`. -/
inductive OperandConstraint where
  | Any : OperandConstraint
  | Reg : OperandConstraint
  | Stack : OperandConstraint
  | FixedReg : PReg → OperandConstraint
  | Reuse : Nat → OperandConstraint
deriving DecidableEq, Repr

/-- The well-formedness a constraint enjoys in Rust when it reaches
`Operand::new` with a vreg of class `c`: a fixed register carries a matching
class and a 6-bit hardware encoding (`PReg::new` enforces the bound, and the
field is a u8), and a reuse index fits in 5 bits.  Used as a hypothesis of
the round-trip theorem. -/
def OperandConstraint.validFor (constraint : OperandConstraint) (c : RegClass) : Prop :=
  match constraint with
  | .FixedReg q => q.cls = c ∧ q.hw_enc < 64
  | .Reuse idx => idx < 32
  | _ => True

/-- `OperandKind`: Def = 0, Mod = 1, Use = 2. -/
inductive OperandKind where
  | Def : OperandKind
  | Mod : OperandKind
  | Use : OperandKind
deriving DecidableEq, Repr

/-- Discriminant of an operand kind. -/
def OperandKind.toNat : OperandKind → Nat
  | .Def => 0
  | .Mod => 1
  | .Use => 2

/-- `OperandPos`: Early = 0, Late = 1. -/
inductive OperandPos where
  | Early : OperandPos
  | Late : OperandPos
deriving DecidableEq, Repr

/-- Discriminant of an operand position. -/
def OperandPos.toNat : OperandPos → Nat
  | .Early => 0
  | .Late => 1

/-- An operand, bit-packed into 32 bits as
`constraint:7 kind:2 pos:1 class:1 vreg:21`. -/
structure Operand where
  bits : Nat
deriving DecidableEq, Repr

/-- The `constraint_field` match inside `Operand::new`.  The FixedReg arm
asserts that the register class of the preg equals the class of the vreg;
the Reuse arm asserts `which <= 31`; both panics are modelled as `none`. -/
def Operand.constraint_field? (vreg : VReg) (constraint : OperandConstraint) :
    Option Nat :=
  match constraint with
  | .Any => some 0
  | .Reg => some 1
  | .Stack => some 2
  | .FixedReg preg =>
      if preg.cls = vreg.cls then some (0b1000000 ||| preg.hw_enc) else Option.none
  | .Reuse which =>
      if which ≤ 31 then some (0b0100000 ||| which) else Option.none

/-- The bit-packing expression of `Operand::new`:
`vreg.vreg() as u32 | class << 21 | pos << 22 | kind << 23 | constraint << 25`. -/
def Operand.packBits (v c p k cf : Nat) : Nat :=
  (v % 4294967296) ||| (c <<< 21) ||| (p <<< 22) ||| (k <<< 23) ||| (cf <<< 25)

/-- `Operand::new`, with the two asserts of its constraint match modelled
as `none`. -/
def Operand.new? (vreg : VReg) (constraint : OperandConstraint)
    (kind : OperandKind) (pos : OperandPos) : Option Operand :=
  (Operand.constraint_field? vreg constraint).map fun cf =>
    { bits := Operand.packBits vreg.vreg vreg.cls.toNat pos.toNat kind.toNat cf }

/-- `Operand::class`: bit 21 (the match on 0/1 is total on a 1-bit value). -/
def Operand.cls (o : Operand) : RegClass :=
  if (o.bits >>> 21) &&& 1 = 0 then RegClass.Int else RegClass.Float

/-- `Operand::vreg`: `VReg::new(self.bits & VReg::MAX, self.class())`; the
bounds check of `VReg::new` always passes on the masked value. -/
def Operand.vreg (o : Operand) : VReg :=
  VReg.new (o.bits &&& VReg.MAX) o.cls

/-- `Operand::kind`: bits 23-24; the `unreachable` arm (value 3) is
modelled as `none`. -/
def Operand.kind? (o : Operand) : Option OperandKind :=
  match (o.bits >>> 23) &&& 3 with
  | 0 => some OperandKind.Def
  | 1 => some OperandKind.Mod
  | 2 => some OperandKind.Use
  | _ => Option.none

/-- `Operand::pos`: bit 22 (total on a 1-bit value). -/
def Operand.pos (o : Operand) : OperandPos :=
  if (o.bits >>> 22) &&& 1 = 0 then OperandPos.Early else OperandPos.Late

/-- `Operand::constraint`: decodes the 7-bit constraint field; the
`unreachable` arm is modelled as `none`. -/
def Operand.constraint? (o : Operand) : Option OperandConstraint :=
  let constraint_field := (o.bits >>> 25) &&& 127
  if constraint_field &&& 0b1000000 ≠ 0 then
    some (OperandConstraint.FixedReg (PReg.new (constraint_field &&& 0b0111111) o.cls))
  else if constraint_field &&& 0b0100000 ≠ 0 then
    some (OperandConstraint.Reuse (constraint_field &&& 0b0011111))
  else
    match constraint_field with
    | 0 => some OperandConstraint.Any
    | 1 => some OperandConstraint.Reg
    | 2 => some OperandConstraint.Stack
    | _ => Option.none

/-- `Operand::from_bits` as computed by a release build: it stores the
given u32 unchanged. -/
def Operand.from_bits (bits : Nat) : Operand := { bits := bits % 4294967296 }

/-- The condition of the `debug_assert` inside `Operand::from_bits`:
`bits >> 29 <= 4`. -/
def Operand.from_bits_ok (bits : Nat) : Bool := decide (bits >>> 29 ≤ 4)

/-! ### Allocation (src/lib.rs lines 676-826) -/

/-- `AllocationKind`: None = 0, Reg = 1, Stack = 2. -/
inductive AllocationKind where
  | None : AllocationKind
  | Reg : AllocationKind
  | Stack : AllocationKind
deriving DecidableEq, Repr

/-- Discriminant of an allocation kind. -/
def AllocationKind.toNat : AllocationKind → Nat
  | .None => 0
  | .Reg => 1
  | .Stack => 2

/-- An allocation, bit-packed into 32 bits as `kind:3 unused:1 index:28`. -/
structure Allocation where
  bits : Nat
deriving DecidableEq, Repr

/-- `Allocation::new`: asserts `index < (1 << 28)`, then packs
`(kind as u8 as u32) << 29 | index as u32`. -/
def Allocation.new? (kind : AllocationKind) (index : Nat) : Option Allocation :=
  if index < 1 <<< 28 then some { bits := (kind.toNat <<< 29) ||| index }
  else Option.none

/-- `Allocation::none`: `Allocation::new(AllocationKind::None, 0)`, whose
assert trivially passes. -/
def Allocation.none : Allocation := { bits := (AllocationKind.None.toNat <<< 29) ||| 0 }

/-- `Allocation::reg`: `Allocation::new(AllocationKind::Reg, preg.index())`. -/
def Allocation.reg? (preg : PReg) : Option Allocation :=
  Allocation.new? AllocationKind.Reg preg.index

/-- `Allocation::stack`: `Allocation::new(AllocationKind::Stack, slot.bits as usize)`. -/
def Allocation.stack? (slot : SpillSlot) : Option Allocation :=
  Allocation.new? AllocationKind.Stack slot.bits

/-- `Allocation::kind`: bits 29-31; the `unreachable` arm is modelled as
`none`. -/
def Allocation.kind? (a : Allocation) : Option AllocationKind :=
  match (a.bits >>> 29) &&& 7 with
  | 0 => some AllocationKind.None
  | 1 => some AllocationKind.Reg
  | 2 => some AllocationKind.Stack
  | _ => Option.none

/-- `Allocation::index`: `(self.bits & ((1 << 28) - 1)) as usize`. -/
def Allocation.index (a : Allocation) : Nat := a.bits &&& ((1 <<< 28) - 1)

/-- `Allocation::as_reg`: `Some(PReg::from_index(self.index()))` when the
kind is Reg. -/
def Allocation.as_reg? (a : Allocation) : Option PReg :=
  if a.kind? = some AllocationKind.Reg then some (PReg.from_index a.index)
  else Option.none

/-- `Allocation::as_stack`: `Some(SpillSlot { bits: self.index() as u32 })`
when the kind is Stack. -/
def Allocation.as_stack? (a : Allocation) : Option SpillSlot :=
  if a.kind? = some AllocationKind.Stack then some { bits := a.index }
  else Option.none

/-- `Allocation::from_bits` as computed by a release build: it stores the
given u32 unchanged. -/
def Allocation.from_bits (bits : Nat) : Allocation := { bits := bits % 4294967296 }

/-- The condition of the `debug_assert` inside `Allocation::from_bits`:
`bits >> 29 >= 5`. -/
def Allocation.from_bits_ok (bits : Nat) : Bool := decide (5 ≤ bits >>> 29)

/-- `Allocation::class`: panics on kind None (modelled as `none`),
otherwise takes the class of the unwrapped register or spill slot; the
unwrap in the Reg arm cannot fail, and the `unreachable` inside
`SpillSlot::class` in the Stack arm is likewise modelled as `none`. -/
def Allocation.class? (a : Allocation) : Option RegClass :=
  match a.kind? with
  | some AllocationKind.None => Option.none
  | some AllocationKind.Reg => a.as_reg?.map PReg.cls
  | some AllocationKind.Stack => a.as_stack?.bind SpillSlot.class?
  | Option.none => Option.none

/-! ### ProgPoint (src/lib.rs lines 1016-1110) -/

/-- `InstPosition`: Before = 0, After = 1. -/
inductive InstPosition where
  | Before : InstPosition
  | After : InstPosition
deriving DecidableEq, Repr

/-- Discriminant of an instruction position. -/
def InstPosition.toNat : InstPosition → Nat
  | .Before => 0
  | .After => 1

/-- Modelled from the spec: `Inst`, the instruction-index newtype produced
by the index macro of src/index.rs, which is not included under src; the
spec describes program points as built from an instruction index, and the
source uses its u32 payload directly (`inst.0 as u32`). -/
structure Inst where
  idx : Nat
deriving DecidableEq, Repr

/-- A program point, packed into a u32: instruction index shifted left one,
position bit in the lowest position. -/
structure ProgPoint where
  bits : Nat
deriving DecidableEq, Repr

/-- `ProgPoint::new`: `((inst.0 as u32) << 1) | (pos as u8 as u32)`, on u32. -/
def ProgPoint.new (inst : Inst) (pos : InstPosition) : ProgPoint :=
  { bits := ((((inst.idx % 4294967296) <<< 1) % 4294967296) ||| pos.toNat) }

/-- `ProgPoint::before`. -/
def ProgPoint.before (inst : Inst) : ProgPoint :=
  ProgPoint.new inst InstPosition.Before

/-- `ProgPoint::after`. -/
def ProgPoint.after (inst : Inst) : ProgPoint :=
  ProgPoint.new inst InstPosition.After

/-- `ProgPoint::next`: `bits + 1` on u32; the release build wraps on
overflow, modelled with an explicit modulus. -/
def ProgPoint.next (p : ProgPoint) : ProgPoint :=
  { bits := (p.bits + 1) % 4294967296 }

/-- `ProgPoint::prev`: `bits - 1` on u32; the release build wraps on
underflow, modelled with an explicit modulus. -/
def ProgPoint.prev (p : ProgPoint) : ProgPoint :=
  { bits := (p.bits + 4294967295) % 4294967296 }

/-! ### Legacy linear-scan entry point (src/linear_scan.rs) -/

/-- The observable outcome of calling `alloc_main`: an Ok return, an Err
return, or a panic. -/
inductive AllocMainOutcome where
  | ok : AllocMainOutcome
  | err : String → AllocMainOutcome
  | panicked : String → AllocMainOutcome
deriving DecidableEq, Repr

/-- Modelled from the spec: `run_analysis` and the `Func` and
`RealRegUniverse` inputs live in modules that are not included under src,
so `alloc_main` is modelled over an arbitrary analysis result.  The body of
`alloc_main` is faithful to src/linear_scan.rs: the `?` operator returns
the analysis error, and otherwise `unimplemented!("linear scan")` panics. -/
def alloc_main {α : Type} (analysis : Except String α) : AllocMainOutcome :=
  match analysis with
  | Except.error e => AllocMainOutcome.err e
  | Except.ok _ => AllocMainOutcome.panicked "not implemented: linear scan"

/-! ### Generic facts about the bit-packing primitives -/

/-- Low bits and disjoint shifted high bits: bitwise or is addition. -/
theorem lor_shiftLeft_eq_add (a b k : Nat) (h : a < 2 ^ k) :
    a ||| (b <<< k) = a + b * 2 ^ k := by
  have hmod : (a ||| (b <<< k)) % 2 ^ k = a := by
    apply Nat.eq_of_testBit_eq
    intro i
    simp only [Nat.testBit_mod_two_pow, Nat.testBit_lor, Nat.testBit_shiftLeft]
    rcases Nat.lt_or_ge i k with hik | hik
    · simp [hik, Nat.not_le.mpr hik]
    · have hlt : a < 2 ^ i := lt_of_lt_of_le h (Nat.pow_le_pow_right (by norm_num) hik)
      simp [Nat.not_lt.mpr hik, Nat.testBit_lt_two_pow hlt]
  have hdiv : (a ||| (b <<< k)) >>> k = b := by
    apply Nat.eq_of_testBit_eq
    intro i
    rw [Nat.testBit_shiftRight]
    simp only [Nat.testBit_lor, Nat.testBit_shiftLeft]
    have hlt : a < 2 ^ (k + i) :=
      lt_of_lt_of_le h (Nat.pow_le_pow_right (by norm_num) (Nat.le_add_right _ _))
    simp [Nat.testBit_lt_two_pow hlt, Nat.le_add_right, Nat.add_sub_cancel_left]
  rw [Nat.shiftRight_eq_div_pow] at hdiv
  calc a ||| (b <<< k)
      = 2 ^ k * ((a ||| (b <<< k)) / 2 ^ k) + (a ||| (b <<< k)) % 2 ^ k :=
        (Nat.div_add_mod _ _).symm
    _ = a + b * 2 ^ k := by rw [hmod, hdiv]; ring

/-- Masking with an all-ones pattern is reduction modulo a power of two. -/
theorem and_two_pow_sub_one_eq_mod (x n : Nat) : x &&& (2 ^ n - 1) = x % 2 ^ n := by
  apply Nat.eq_of_testBit_eq
  intro i
  simp [Nat.testBit_and, Nat.testBit_two_pow_sub_one, Nat.testBit_mod_two_pow,
    Bool.and_comm]

/-- Masking with a single power of two tests one bit, in div or mod terms. -/
theorem and_two_pow_eq_ite (x n : Nat) :
    x &&& 2 ^ n = if (x / 2 ^ n) % 2 = 1 then 2 ^ n else 0 := by
  apply Nat.eq_of_testBit_eq
  intro i
  rcases eq_or_ne i n with rfl | hne
  · have : x.testBit i = decide ((x / 2 ^ i) % 2 = 1) := Nat.testBit_to_div_mod
    rcases Nat.lt_or_ge ((x / 2 ^ i) % 2) 2 with h2 | h2
    · interval_cases h : (x / 2 ^ i) % 2 <;>
        simp_all [Nat.testBit_and, Nat.testBit_two_pow_self]
    · omega
  · by_cases h1 : (x / 2 ^ n) % 2 = 1 <;>
      simp [Nat.testBit_and, Nat.testBit_two_pow, hne, Ne.symm hne, h1]

/-- A power of two or-ed over a smaller value is addition. -/
theorem two_pow_lor_eq_add (n a : Nat) (h : a < 2 ^ n) : 2 ^ n ||| a = 2 ^ n + a := by
  have h1 : a ||| (1 <<< n) = a + 1 * 2 ^ n := lor_shiftLeft_eq_add a 1 n h
  rw [Nat.shiftLeft_eq, one_mul] at h1
  rw [Nat.lor_comm, h1]
  omega

/-- The class discriminant is a single bit. -/
theorem RegClass.toNat_lt_bound (c : RegClass) : c.toNat < 2 := by
  cases c <;> simp [RegClass.toNat]

/-- The kind discriminant fits in two bits. -/
theorem OperandKind.toNat_lt_four (k : OperandKind) : k.toNat < 4 := by
  cases k <;> simp [OperandKind.toNat]

/-- The position discriminant is a single bit. -/
theorem OperandPos.toNat_pos_bound (p : OperandPos) : p.toNat < 2 := by
  cases p <;> simp [OperandPos.toNat]

/-- The two accessors of a vreg built from an in-range id and a class give
back exactly that id and class. -/
theorem VReg.new_fields (v : Nat) (c : RegClass) (h : v < 2 ^ 21) :
    (VReg.new v c).vreg = v ∧ (VReg.new v c).cls = c := by
  have h32 : v % 4294967296 = v := Nat.mod_eq_of_lt (by omega)
  have hsh : v <<< 1 = v * 2 := by rw [Nat.shiftLeft_eq]
  have hsh32 : (v * 2) % 4294967296 = v * 2 := Nat.mod_eq_of_lt (by omega)
  have hor : (v * 2) ||| c.toNat = c.toNat + v * 2 := by
    have h1 : c.toNat ||| (v <<< 1) = c.toNat + v * 2 ^ 1 :=
      lor_shiftLeft_eq_add c.toNat v 1 (RegClass.toNat_lt_bound c)
    rw [hsh] at h1
    rw [Nat.lor_comm, h1]
    norm_num
  constructor
  · show (VReg.new v c).bits >>> 1 = v
    rw [VReg.new]
    simp only [h32, hsh, hsh32, hor]
    rw [Nat.shiftRight_eq_div_pow]
    cases c <;> simp [RegClass.toNat] <;> omega
  · show VReg.cls (VReg.new v c) = c
    rw [VReg.cls, VReg.new]
    simp only [h32, hsh, hsh32, hor]
    have hand : ∀ x : Nat, x &&& 1 = x % 2 := fun x => Nat.and_one_is_mod x
    cases c <;> simp [RegClass.toNat, hand] <;> omega

/-- Literal form of the 21-bit mask. -/
theorem and_mask_21 (x : Nat) : x &&& 2097151 = x % 2097152 := by
  have h := and_two_pow_sub_one_eq_mod x 21
  norm_num at h
  exact h

/-- Literal form of the 2-bit mask. -/
theorem and_mask_2 (x : Nat) : x &&& 3 = x % 4 := by
  have h := and_two_pow_sub_one_eq_mod x 2
  norm_num at h
  exact h

/-- Literal form of the 7-bit mask. -/
theorem and_mask_7 (x : Nat) : x &&& 127 = x % 128 := by
  have h := and_two_pow_sub_one_eq_mod x 7
  norm_num at h
  exact h

/-- Literal form of the 6-bit mask. -/
theorem and_mask_6 (x : Nat) : x &&& 63 = x % 64 := by
  have h := and_two_pow_sub_one_eq_mod x 6
  norm_num at h
  exact h

/-- Literal form of the 5-bit mask. -/
theorem and_mask_5 (x : Nat) : x &&& 31 = x % 32 := by
  have h := and_two_pow_sub_one_eq_mod x 5
  norm_num at h
  exact h

/-- Literal form of the bit-6 test. -/
theorem and_bit_64 (x : Nat) : x &&& 64 = if (x / 64) % 2 = 1 then 64 else 0 := by
  have h := and_two_pow_eq_ite x 6
  norm_num at h
  exact h

/-- Literal form of the bit-5 test. -/
theorem and_bit_32 (x : Nat) : x &&& 32 = if (x / 32) % 2 = 1 then 32 else 0 := by
  have h := and_two_pow_eq_ite x 5
  norm_num at h
  exact h

/-- The operand packing expression, in plain arithmetic, when every field is
in range. -/
theorem Operand.packBits_eq (v c p k cf : Nat)
    (hv : v < 2 ^ 21) (hc : c < 2) (hp : p < 2) (hk : k < 4) (hcf : cf < 128) :
    Operand.packBits v c p k cf
      = v + c * 2 ^ 21 + p * 2 ^ 22 + k * 2 ^ 23 + cf * 2 ^ 25 := by
  unfold Operand.packBits
  rw [Nat.mod_eq_of_lt (show v < 4294967296 by omega)]
  rw [lor_shiftLeft_eq_add v c 21 hv]
  rw [lor_shiftLeft_eq_add _ p 22 (by omega)]
  rw [lor_shiftLeft_eq_add _ k 23 (by omega)]
  rw [lor_shiftLeft_eq_add _ cf 25 (by omega)]

/-- Extraction of every field from the operand packing expression. -/
theorem Operand.packBits_fields (v c p k cf : Nat)
    (hv : v < 2 ^ 21) (hc : c < 2) (hp : p < 2) (hk : k < 4) (hcf : cf < 128) :
    Operand.packBits v c p k cf &&& 2097151 = v
    ∧ (Operand.packBits v c p k cf >>> 21) &&& 1 = c
    ∧ (Operand.packBits v c p k cf >>> 22) &&& 1 = p
    ∧ (Operand.packBits v c p k cf >>> 23) &&& 3 = k
    ∧ (Operand.packBits v c p k cf >>> 25) &&& 127 = cf := by
  rw [Operand.packBits_eq v c p k cf hv hc hp hk hcf]
  rw [and_mask_21, Nat.shiftRight_eq_div_pow, Nat.shiftRight_eq_div_pow,
    Nat.shiftRight_eq_div_pow, Nat.and_one_is_mod, Nat.and_one_is_mod,
    and_mask_2, and_mask_7]
  norm_num
  refine ⟨by omega, by omega, by omega, by omega, by omega⟩

/-- The accessors of an operand whose bits are a packing of in-range
fields: vreg, class, kind and position come back exactly, and the
constraint field is recovered raw. -/
theorem Operand.accessors_of_packBits (o : Operand) (v : Nat) (c : RegClass)
    (k : OperandKind) (p : OperandPos) (cf : Nat) (hv : v < 2 ^ 21) (hcf : cf < 128)
    (hbits : o.bits = Operand.packBits v c.toNat p.toNat k.toNat cf) :
    o.vreg = VReg.new v c ∧ o.cls = c ∧ o.kind? = some k ∧ o.pos = p
      ∧ (o.bits >>> 25) &&& 127 = cf := by
  obtain ⟨f1, f2, f3, f4, f5⟩ := Operand.packBits_fields v c.toNat p.toNat k.toNat cf
    hv (RegClass.toNat_lt_bound c) (OperandPos.toNat_pos_bound p) (OperandKind.toNat_lt_four k) hcf
  have hcls : o.cls = c := by
    unfold Operand.cls
    rw [hbits, f2]
    cases c <;> simp [RegClass.toNat]
  refine ⟨?_, hcls, ?_, ?_, ?_⟩
  · unfold Operand.vreg
    rw [hcls, hbits]
    rw [show VReg.MAX = 2097151 by decide, f1]
  · unfold Operand.kind?
    rw [hbits, f4]
    cases k <;> simp [OperandKind.toNat]
  · unfold Operand.pos
    rw [hbits, f3]
    cases p <;> simp [OperandPos.toNat]
  · rw [hbits]
    exact f5

/-- C2: for every vreg id below 2^21, every class, every well-formed
constraint (Any, Reg, Stack, FixedReg with matching class, Reuse below 32),
every kind and every position, the operand built by `Operand::new`
reproduces each input field exactly through the accessors `vreg`, `class`,
`constraint`, `kind` and `pos`. -/
theorem operand_new_roundtrip (v : Nat) (c : RegClass) (con : OperandConstraint)
    (k : OperandKind) (p : OperandPos) (o : Operand)
    (hv : v < 2 ^ 21) (hcon : OperandConstraint.validFor con c)
    (ho : Operand.new? (VReg.new v c) con k p = some o) :
    o.vreg = VReg.new v c ∧ o.cls = c ∧ o.constraint? = some con
      ∧ o.kind? = some k ∧ o.pos = p := by
  obtain ⟨hvv, hvc⟩ := VReg.new_fields v c hv
  cases con with
  | Any =>
    simp only [Operand.new?, Operand.constraint_field?, Option.map_some',
      Option.some.injEq] at ho
    rw [hvv, hvc] at ho
    obtain ⟨a1, a2, a3, a4, a5⟩ := Operand.accessors_of_packBits o v c k p 0 hv
      (by norm_num) (congrArg Operand.bits ho.symm)
    refine ⟨a1, a2, ?_, a3, a4⟩
    unfold Operand.constraint?
    simp only [a5]
    simp [(by decide : ((0 : Nat) &&& 64) = 0), (by decide : ((0 : Nat) &&& 32) = 0)]
  | Reg =>
    simp only [Operand.new?, Operand.constraint_field?, Option.map_some',
      Option.some.injEq] at ho
    rw [hvv, hvc] at ho
    obtain ⟨a1, a2, a3, a4, a5⟩ := Operand.accessors_of_packBits o v c k p 1 hv
      (by norm_num) (congrArg Operand.bits ho.symm)
    refine ⟨a1, a2, ?_, a3, a4⟩
    unfold Operand.constraint?
    simp only [a5]
    simp [(by decide : ((1 : Nat) &&& 64) = 0), (by decide : ((1 : Nat) &&& 32) = 0)]
  | Stack =>
    simp only [Operand.new?, Operand.constraint_field?, Option.map_some',
      Option.some.injEq] at ho
    rw [hvv, hvc] at ho
    obtain ⟨a1, a2, a3, a4, a5⟩ := Operand.accessors_of_packBits o v c k p 2 hv
      (by norm_num) (congrArg Operand.bits ho.symm)
    refine ⟨a1, a2, ?_, a3, a4⟩
    unfold Operand.constraint?
    simp only [a5]
    simp [(by decide : ((2 : Nat) &&& 64) = 0), (by decide : ((2 : Nat) &&& 32) = 0)]
  | FixedReg q =>
    obtain ⟨hqc, hqh⟩ := hcon
    obtain ⟨qh, qc⟩ := q
    simp only at hqc hqh
    subst hqc
    have hcf_eq : (0b1000000 : Nat) ||| qh = 64 + qh := by
      have h2 := two_pow_lor_eq_add 6 qh (by norm_num; omega)
      norm_num at h2
      exact h2
    have hcf : Operand.constraint_field? (VReg.new v qc)
        (OperandConstraint.FixedReg (PReg.mk qh qc)) = some (64 + qh) := by
      simp [Operand.constraint_field?, hvc, hcf_eq]
    simp only [Operand.new?, hcf, Option.map_some', Option.some.injEq] at ho
    rw [hvv, hvc] at ho
    obtain ⟨a1, a2, a3, a4, a5⟩ := Operand.accessors_of_packBits o v qc k p
      (64 + qh) hv (by omega) (congrArg Operand.bits ho.symm)
    refine ⟨a1, a2, ?_, a3, a4⟩
    unfold Operand.constraint?
    have hb64 : (64 + qh) &&& 64 = 64 := by
      rw [and_bit_64]
      have hdiv : (64 + qh) / 64 = 1 := by omega
      rw [hdiv]
      norm_num
    have hb63 : (64 + qh) &&& 63 = qh := by
      rw [and_mask_6]
      omega
    simp only [a5, hb64, hb63, a2]
    norm_num [PReg.new, Nat.mod_eq_of_lt (show qh < 256 by omega)]
  | Reuse w =>
    have hw : w < 32 := hcon
    have hcf_eq : (0b0100000 : Nat) ||| w = 32 + w := by
      have h2 := two_pow_lor_eq_add 5 w (by norm_num; omega)
      norm_num at h2
      exact h2
    simp only [Operand.new?, Operand.constraint_field?,
      if_pos (show w ≤ 31 by omega), Option.map_some', Option.some.injEq] at ho
    rw [hvv, hvc, hcf_eq] at ho
    obtain ⟨a1, a2, a3, a4, a5⟩ := Operand.accessors_of_packBits o v c k p
      (32 + w) hv (by omega) (congrArg Operand.bits ho.symm)
    refine ⟨a1, a2, ?_, a3, a4⟩
    unfold Operand.constraint?
    have hb64 : (32 + w) &&& 64 = 0 := by
      rw [and_bit_64]
      have hdiv : (32 + w) / 64 = 0 := by omega
      rw [hdiv]
      norm_num
    have hb32 : (32 + w) &&& 32 = 32 := by
      rw [and_bit_32]
      have hdiv : (32 + w) / 32 = 1 := by omega
      rw [hdiv]
      norm_num
    have hb31 : (32 + w) &&& 31 = w := by
      rw [and_mask_5]
      omega
    simp only [a5, hb64, hb32, hb31]
    norm_num

/-- Witness for the operand round-trip theorem at vreg id 5, class Int,
constraint Reuse 3, kind Use, position Early. -/
theorem operand_new_roundtrip_witness :
    (Operand.mk 1191182341).vreg = VReg.new 5 RegClass.Int
    ∧ (Operand.mk 1191182341).cls = RegClass.Int
    ∧ (Operand.mk 1191182341).constraint? = some (OperandConstraint.Reuse 3)
    ∧ (Operand.mk 1191182341).kind? = some OperandKind.Use
    ∧ (Operand.mk 1191182341).pos = OperandPos.Early :=
  operand_new_roundtrip 5 RegClass.Int (OperandConstraint.Reuse 3) OperandKind.Use
    OperandPos.Early (Operand.mk 1191182341) (by norm_num)
    (by simp only [OperandConstraint.validFor]; omega) (by decide)

/-- C1 (code bug): `PReg::index` shifts the class bit by 5, not by
`MAX_BITS` = 6, contradicting its own doc comment ("class bit at the MSB,
indices 0..=63 integer, 64..=127 float") and `MAX_INDEX` = 128.  The
round-trip fails at hw_enc 32 of class Int, whose index 32 collides with
hw_enc 0 of class Float, and no index ever reaches the float range 64..127:
even hw_enc 63 of class Float has index 63. -/
theorem preg_index_bug :
    PReg.from_index (PReg.new 32 RegClass.Int).index ≠ PReg.new 32 RegClass.Int
    ∧ (PReg.new 32 RegClass.Int).index = 32
    ∧ (PReg.new 0 RegClass.Float).index = 32
    ∧ PReg.from_index 32 = PReg.new 32 RegClass.Float
    ∧ (PReg.new 63 RegClass.Float).index = 63
    ∧ PReg.MAX_INDEX = 128 := by decide

/-- C3 (code bug): the debug assertion in `Allocation::from_bits`,
`bits >> 29 >= 5`, fires on every constructor-produced allocation (all
kinds are at most 2), already at `Allocation::none()`; the assertion in
`Operand::from_bits`, `bits >> 29 <= 4`, fires on operands with a FixedReg
constraint of hw_enc at least 16.  The bits themselves still round-trip. -/
theorem from_bits_assert_fires :
    Allocation.from_bits_ok Allocation.none.bits = false
    ∧ Allocation.from_bits Allocation.none.bits = Allocation.none
    ∧ (Operand.new? (VReg.new 0 RegClass.Int)
          (OperandConstraint.FixedReg (PReg.new 16 RegClass.Int))
          OperandKind.Use OperandPos.Early).map
        (fun o => (Operand.from_bits_ok o.bits, decide (Operand.from_bits o.bits = o)))
        = some (false, true) := by decide

/-- C4 (code bug): `Allocation::reg` followed by `as_reg` does not return
the original register, because `PReg::from_index` does not invert
`PReg::index` (the class bit collides with bit 5 of hw_enc): for hw_enc 0
of class Float, `as_reg` returns hw_enc 32 of class Float. -/
theorem allocation_as_reg_not_inverse :
    (Allocation.reg? (PReg.new 0 RegClass.Float)).bind Allocation.as_reg?
      = some (PReg.new 32 RegClass.Float)
    ∧ PReg.new 32 RegClass.Float ≠ PReg.new 0 RegClass.Float := by decide

/-- C5: program points are ordered `before(i) < after(i) < before(i+1)`
with no point strictly between adjacent pairs, and `next`/`prev` are
mutual inverses wherever the u32 arithmetic does not wrap. -/
theorem progpoint_order_next_prev (i : Nat) (p : ProgPoint)
    (hi : 2 * i + 2 < 4294967296) (hp : p.bits < 4294967296) :
    (ProgPoint.before ⟨i⟩).bits < (ProgPoint.after ⟨i⟩).bits
    ∧ (ProgPoint.after ⟨i⟩).bits < (ProgPoint.before ⟨i + 1⟩).bits
    ∧ ¬((ProgPoint.before ⟨i⟩).bits < p.bits ∧ p.bits < (ProgPoint.after ⟨i⟩).bits)
    ∧ ¬((ProgPoint.after ⟨i⟩).bits < p.bits ∧ p.bits < (ProgPoint.before ⟨i + 1⟩).bits)
    ∧ (p.bits + 1 < 4294967296 → p.next.prev = p)
    ∧ (0 < p.bits → p.prev.next = p) := by
  have hsh : ∀ n : Nat, n <<< 1 = 2 * n := fun n => by rw [Nat.shiftLeft_eq]; ring
  have hor1 : ∀ n : Nat, (2 * n) ||| 1 = 2 * n + 1 := by
    intro n
    have h1 : 1 ||| (n <<< 1) = 1 + n * 2 ^ 1 := lor_shiftLeft_eq_add 1 n 1 (by norm_num)
    rw [hsh] at h1
    rw [Nat.lor_comm, h1]
    ring
  have hmodi : i % 4294967296 = i := Nat.mod_eq_of_lt (by omega)
  have hb : (ProgPoint.before ⟨i⟩).bits = 2 * i := by
    simp only [ProgPoint.before, ProgPoint.new, InstPosition.toNat, hmodi, hsh]
    rw [Nat.mod_eq_of_lt (show 2 * i < 4294967296 by omega)]
    simp
  have ha : (ProgPoint.after ⟨i⟩).bits = 2 * i + 1 := by
    simp only [ProgPoint.after, ProgPoint.new, InstPosition.toNat, hmodi, hsh]
    rw [Nat.mod_eq_of_lt (show 2 * i < 4294967296 by omega), hor1]
  have hb1 : (ProgPoint.before ⟨i + 1⟩).bits = 2 * i + 2 := by
    simp only [ProgPoint.before, ProgPoint.new, InstPosition.toNat, hsh]
    rw [Nat.mod_eq_of_lt (show i + 1 < 4294967296 by omega),
      Nat.mod_eq_of_lt (show 2 * (i + 1) < 4294967296 by omega)]
    simp
    omega
  refine ⟨by rw [hb, ha]; omega, by rw [ha, hb1]; omega,
    by rw [hb, ha]; omega, by rw [ha, hb1]; omega, ?_, ?_⟩
  · intro hnv
    obtain ⟨pb⟩ := p
    dsimp only at hnv hp
    simp only [ProgPoint.next, ProgPoint.prev, ProgPoint.mk.injEq]
    omega
  · intro hnz
    obtain ⟨pb⟩ := p
    dsimp only at hnz hp
    simp only [ProgPoint.next, ProgPoint.prev, ProgPoint.mk.injEq]
    omega

/-- Witness for the program-point theorem at instruction 3 and the point
with bits 7. -/
theorem progpoint_order_next_prev_witness :
    (ProgPoint.before ⟨3⟩).bits < (ProgPoint.after ⟨3⟩).bits
    ∧ (ProgPoint.next (ProgPoint.mk 7)).prev = ProgPoint.mk 7 :=
  ⟨(progpoint_order_next_prev 3 ⟨7⟩ (by norm_num) (by norm_num)).1,
   (progpoint_order_next_prev 3 ⟨7⟩ (by norm_num) (by norm_num)).2.2.2.2.1
     (by norm_num)⟩

/-- C6: each encoding constructor panics exactly on out-of-range input:
`PReg::new` iff hw_enc is 64 or more, `VReg::new` iff the id is 2^21 or
more, `SpillSlot::new` iff the slot is 2^24 or more, `Allocation::new` iff
the index is 2^28 or more, and `Operand::new` iff the constraint is a
FixedReg of the wrong class or a Reuse index above 31. -/
theorem constructors_panic_iff :
    (∀ hw c, PReg.new? hw c = Option.none ↔ 64 ≤ hw)
    ∧ (∀ v c, VReg.new? v c = Option.none ↔ 2097152 ≤ v)
    ∧ (∀ slot c, SpillSlot.new? slot c = Option.none ↔ 16777216 ≤ slot)
    ∧ (∀ kind index, Allocation.new? kind index = Option.none ↔ 268435456 ≤ index)
    ∧ (∀ vr con k p, Operand.new? vr con k p = Option.none ↔
        ((∃ q, con = OperandConstraint.FixedReg q ∧ q.cls ≠ vr.cls)
          ∨ (∃ idx, con = OperandConstraint.Reuse idx ∧ 31 < idx))) := by
  refine ⟨?_, ?_, ?_, ?_, ?_⟩
  · intro hw c
    unfold PReg.new?
    rw [show PReg.MAX + 1 = 64 from by decide]
    split <;> rename_i h <;> simp <;> omega
  · intro v c
    unfold VReg.new?
    rw [show VReg.MAX + 1 = 2097152 from by decide]
    split <;> rename_i h <;> simp <;> omega
  · intro slot c
    unfold SpillSlot.new?
    rw [show (1 <<< 24 : Nat) = 16777216 from by decide]
    split <;> rename_i h <;> simp <;> omega
  · intro kind index
    unfold Allocation.new?
    rw [show (1 <<< 28 : Nat) = 268435456 from by decide]
    split <;> rename_i h <;> simp <;> omega
  · intro vr con k p
    cases con with
    | Any => simp [Operand.new?, Operand.constraint_field?]
    | Reg => simp [Operand.new?, Operand.constraint_field?]
    | Stack => simp [Operand.new?, Operand.constraint_field?]
    | FixedReg q =>
      unfold Operand.new? Operand.constraint_field?
      split <;> rename_i h <;> simp_all
    | Reuse w =>
      unfold Operand.new? Operand.constraint_field?
      split <;> rename_i h <;> simp_all <;> omega

/-- C7: the invalid spill slot is distinct from every slot produced by
`SpillSlot::new`, and the predicates `is_invalid` and `is_valid` are
complementary and characterize equality with the sentinel. -/
theorem spillslot_invalid_distinct :
    (∀ slot c s, SpillSlot.new? slot c = some s → s ≠ SpillSlot.invalid)
    ∧ (∀ s : SpillSlot,
        (s.is_invalid = true ↔ s = SpillSlot.invalid)
        ∧ (s.is_valid = true ↔ s ≠ SpillSlot.invalid)) := by
  constructor
  · intro slot c s hs hcontra
    unfold SpillSlot.new? at hs
    rw [show (1 <<< 24 : Nat) = 16777216 from by decide] at hs
    split at hs <;> rename_i h
    · obtain rfl := Option.some.inj hs
      have hslot : slot % 4294967296 = slot := Nat.mod_eq_of_lt (by omega)
      have hor : slot ||| (c.toNat <<< 24) = slot + c.toNat * 2 ^ 24 :=
        lor_shiftLeft_eq_add slot c.toNat 24 (by omega)
      have hc2 := RegClass.toNat_lt_bound c
      have hb := congrArg SpillSlot.bits hcontra
      simp only [SpillSlot.invalid] at hb
      rw [hslot, hor] at hb
      norm_num at hb
      omega
    · exact Option.noConfusion hs
  · intro s
    constructor
    · simp [SpillSlot.is_invalid]
    · simp [SpillSlot.is_valid]

/-- Witness for the spill-slot sentinel theorem at slot 5, class Float. -/
theorem spillslot_invalid_distinct_witness :
    SpillSlot.mk 16777221 ≠ SpillSlot.invalid :=
  spillslot_invalid_distinct.1 5 RegClass.Float ⟨16777221⟩ (by decide)

/-- C8 (code bug): `Allocation::class` on a register allocation reports
the class of `PReg::from_index(index)`, and since `PReg::index` corrupts
hw_enc values 32..=63 (class bit shifted by 5, not 6), the reported class
is Float for the Int register with hw_enc 32; the None allocation still
has no class (the panic arm). -/
theorem allocation_class_bug :
    (Allocation.reg? (PReg.new 32 RegClass.Int)).bind Allocation.class?
      = some RegClass.Float
    ∧ (PReg.new 32 RegClass.Int).cls = RegClass.Int
    ∧ Allocation.none.class? = Option.none := by decide

/-- C9: the legacy linear-scan entry point never returns Ok: it either
propagates the analysis error or panics in `unimplemented!` after the
analysis succeeds. -/
theorem alloc_main_never_ok (α : Type) (r : Except String α) :
    alloc_main r ≠ AllocMainOutcome.ok
    ∧ ((∃ e, r = Except.error e ∧ alloc_main r = AllocMainOutcome.err e)
        ∨ alloc_main r = AllocMainOutcome.panicked "not implemented: linear scan") := by
  cases r with
  | error e => exact ⟨by simp [alloc_main], Or.inl ⟨e, rfl, by simp [alloc_main]⟩⟩
  | ok a => exact ⟨by simp [alloc_main], Or.inr (by simp [alloc_main])⟩

/-- C10: `Allocation::stack` panics on the invalid spill-slot sentinel
(its all-ones bits exceed the 28-bit index field of `Allocation::new`) and
succeeds on every spill slot produced by `SpillSlot::new`. -/
theorem allocation_stack_on_invalid_panics :
    Allocation.stack? SpillSlot.invalid = Option.none
    ∧ (∀ slot c s, SpillSlot.new? slot c = some s
        → (Allocation.stack? s).isSome = true) := by
  constructor
  · decide
  · intro slot c s hs
    unfold SpillSlot.new? at hs
    rw [show (1 <<< 24 : Nat) = 16777216 from by decide] at hs
    split at hs <;> rename_i h
    · obtain rfl := Option.some.inj hs
      have hslot : slot % 4294967296 = slot := Nat.mod_eq_of_lt (by omega)
      have hor : slot ||| (c.toNat <<< 24) = slot + c.toNat * 2 ^ 24 :=
        lor_shiftLeft_eq_add slot c.toNat 24 (by omega)
      have hc2 := RegClass.toNat_lt_bound c
      have hbits : (SpillSlot.mk ((slot % 4294967296) ||| (c.toNat <<< 24))).bits
          = slot + c.toNat * 2 ^ 24 := by
        dsimp only
        rw [hslot, hor]
      unfold Allocation.stack? Allocation.new?
      rw [hbits, show (1 <<< 28 : Nat) = 268435456 from by decide,
        if_pos (by omega)]
      simp
    · exact Option.noConfusion hs

/-- Witness for the stack-allocation theorem at slot 3, class Int. -/
theorem allocation_stack_on_invalid_panics_witness :
    (Allocation.stack? (SpillSlot.mk 3)).isSome = true :=
  allocation_stack_on_invalid_panics.2 3 RegClass.Int ⟨3⟩ (by decide)
